import Mathlib

/-!
Verification development for the SonicSync search-and-fetch pipeline
(services/download_service.py and services/scraper_service.py).

The Python services are shallowly embedded: strings are manipulated
through their character lists, machine effects (HTTP transfers, the
filesystem, the iteration order of a Python set) are explicit
parameters, and every definition is executable.
-/

/-! ## Python string primitives -/

/-- Whitespace recognised by the default str.split and str.strip
(ASCII subset; every input considered below is ASCII). -/
def pyIsSpace (c : Char) : Bool :=
  c == ' ' || c == '\t' || c == '\n' || c == '\r' || c == Char.ofNat 11 || c == Char.ofNat 12

/-- Substring test on character lists, matching the Python operator in. -/
def containsSub : List Char → List Char → Bool
  | [], pat => pat.isEmpty
  | l@(_ :: t), pat => pat.isPrefixOf l || containsSub t pat

/-- Python substring test: pat occurs inside s. -/
def strContains (s pat : String) : Bool := containsSub s.toList pat.toList

def strStartsWith (s pat : String) : Bool := pat.toList.isPrefixOf s.toList

def strEndsWith (s pat : String) : Bool := pat.toList.isSuffixOf s.toList

/-- ASCII lower-casing, matching str.lower on the inputs used here. -/
def strToLower (s : String) : String := String.mk (s.toList.map Char.toLower)

def pyStripL (l : List Char) : List Char :=
  ((l.dropWhile pyIsSpace).reverse.dropWhile pyIsSpace).reverse

/-- Python str.strip with no arguments. -/
def pyStrip (s : String) : String := String.mk (pyStripL s.toList)

/-- Python str.split with no arguments: split on whitespace runs and
drop empty fragments. The accumulator holds the current word reversed. -/
def splitWordsL : List Char → List Char → List (List Char)
  | [], cur => if cur.isEmpty then [] else [cur.reverse]
  | c :: t, cur =>
    if pyIsSpace c then
      if cur.isEmpty then splitWordsL t [] else cur.reverse :: splitWordsL t []
    else splitWordsL t (c :: cur)

/-- Join a word list with single spaces, as the space-join idiom does. -/
def joinSpaceL : List (List Char) → List Char
  | [] => []
  | [w] => w
  | w :: ws => w ++ ' ' :: joinSpaceL ws

/-- Python str.replace for a nonempty pattern; fuel is the length of the
scanned text, which bounds the number of scanning steps. -/
def replaceSubGo (pat rep : List Char) : Nat → List Char → List Char
  | 0, l => l
  | _ + 1, [] => []
  | fuel + 1, c :: t =>
    if !pat.isEmpty && pat.isPrefixOf (c :: t) then
      rep ++ replaceSubGo pat rep fuel ((c :: t).drop pat.length)
    else c :: replaceSubGo pat rep fuel t

def strReplace (s pat rep : String) : String :=
  String.mk (replaceSubGo pat.toList rep.toList s.toList.length s.toList)

/-- First-occurrence deduplication, the order produced by the Python
idiom list(dict.fromkeys(xs)). -/
def dedupFirstGo {α : Type} [DecidableEq α] : List α → List α → List α
  | [], _ => []
  | x :: xs, seen => if x ∈ seen then dedupFirstGo xs seen else x :: dedupFirstGo xs (x :: seen)

def dedupFirst {α : Type} [DecidableEq α] (l : List α) : List α := dedupFirstGo l []

/-- Suffix of the list after the first occurrence of pat, if any. -/
def afterFirst : List Char → List Char → Option (List Char)
  | [], pat => if pat.isEmpty then some [] else none
  | l@(_ :: t), pat => if pat.isPrefixOf l then some (l.drop pat.length) else afterFirst t pat

/-! ## URL helpers (urllib.parse on the absolute http URLs this code builds) -/

/-- Scheme of a URL: the characters before the first colon. -/
def urlScheme (u : String) : String := String.mk (u.toList.takeWhile (· != ':'))

/-- Scheme plus authority of an absolute URL, e.g. https://host for
https://host/path. -/
def urlSchemeHost (u : String) : String :=
  match afterFirst u.toList "://".toList with
  | some rest =>
      String.mk (u.toList.take (u.toList.length - rest.length) ++ rest.takeWhile (· != '/'))
  | none => u

/-- Path component of an absolute http URL, as urlparse yields it for
the URLs this code feeds it. -/
def urlPath (u : String) : String :=
  let rest := match afterFirst u.toList "://".toList with
    | some r => r.dropWhile (· != '/')
    | none => u.toList
  String.mk (rest.takeWhile (fun c => c != '?' && c != '#'))

/-- Extension, including the dot, as os.path.splitext returns it for a
POSIX path: taken from the last dot of the final segment, unless every
character before that dot is itself a dot. -/
def splitextExt (p : String) : String :=
  let base := (p.toList.reverse.takeWhile (· != '/')).reverse
  let afterDot := base.reverse.takeWhile (· != '.')
  if afterDot.length = base.length then ""
  else
    let i := base.length - afterDot.length - 1
    if (base.take i).any (· != '.') then String.mk (base.drop i) else ""

/-- urljoin for a link starting with a slash: a network-path reference
keeps the base scheme, otherwise the base scheme and host are kept. -/
def urljoinSlash (base link : String) : String :=
  if strStartsWith link "//" then urlScheme base ++ ":" ++ link
  else urlSchemeHost base ++ link

/-! ## DownloadService (services/download_service.py) -/

def supported_formats : List String := [".mp3", ".m4a", ".wav", ".flac", ".aac"]

def max_file_size : Nat := 100 * 1024 * 1024

def invalid_chars : List Char := ['<', '>', ':', '"', '/', '\\', '|', '?', '*']

/-- DownloadService.sanitize_filename: replace each invalid character by
an underscore, collapse whitespace runs to single spaces and strip the
ends, then truncate to 100 characters. -/
def sanitize_filename (filename : String) : String :=
  let replaced := filename.toList.map (fun c => if invalid_chars.contains c then '_' else c)
  let collapsed := joinSpaceL (splitWordsL replaced [])
  String.mk (collapsed.take 100)

/-- Sanitisation exactly as the specification words it, with no
whitespace collapsing: replace invalid characters, truncate to 100.
Used only to compare the spec wording with the code. -/
def sanitizeSpecWords (filename : String) : String :=
  String.mk ((filename.toList.map (fun c => if invalid_chars.contains c then '_' else c)).take 100)

/-- Response to a metadata-only HEAD probe. -/
structure HeadResp where
  status : Nat
  contentType : String
  contentLength : Option Nat
deriving DecidableEq

/-- Whether a declared content type counts as audio for
validate_download_link. -/
def isAudioCT (ct : String) : Bool :=
  strContains (strToLower ct) "audio" || strContains (strToLower ct) "mpeg" ||
    strContains (strToLower ct) "mp3" || strContains (strToLower ct) "mp4"

/-- Whether a declared size passes the validation gate: absent sizes
pass, present sizes must lie in the inclusive range 1 MiB to 100 MiB. -/
def sizeOk : Option Nat → Bool
  | none => true
  | some n => !(decide (n < 1024 * 1024) || decide (max_file_size < n))

/-- DownloadService.validate_download_link. The probe argument models
session.head; none is a raised transport error. -/
def validate_download_link (probe : String → Option HeadResp) (url : String) : Bool :=
  if supported_formats.any (fun ext => strContains (strToLower url) ext) then true
  else
    match probe url with
    | none => false
    | some r =>
      if r.status != 200 then false
      else
        match r.contentLength with
        | some size =>
          if size < 1024 * 1024 || max_file_size < size then false else isAudioCT r.contentType
        | none => isAudioCT r.contentType

/-- Recognised content types in the extension choice of
DownloadService._download_file. -/
def ctKnown (ct : String) : Bool :=
  (strContains ct "audio/mpeg" || strContains ct "audio/mp3") ||
    (strContains ct "audio/mp4" || strContains ct "audio/m4a")

/-- Extension selection in DownloadService._download_file. -/
def chooseExt (contentType url : String) : String :=
  if strContains contentType "audio/mpeg" || strContains contentType "audio/mp3" then ".mp3"
  else if strContains contentType "audio/mp4" || strContains contentType "audio/m4a" then ".m4a"
  else
    let url_ext := strToLower (splitextExt (urlPath url))
    if supported_formats.contains url_ext then url_ext else ".mp3"

/-- Transcript of a streamed GET: whether raise_for_status passes, the
declared headers, the chunk sizes iter_content delivers, and whether the
stream raises after those chunks instead of ending normally. -/
structure TransferResp where
  ok : Bool
  contentType : String
  contentLength : Option Nat
  chunks : List Nat
  interrupted : Bool
deriving DecidableEq

/-- The chunk-writing loop: bytes written so far and whether the
mid-stream size limit aborted the transfer. Empty chunks are skipped. -/
def writeChunks (maxSize : Nat) : List Nat → Nat → Nat × Bool
  | [], n => (n, false)
  | c :: cs, n =>
    if c = 0 then writeChunks maxSize cs n
    else if maxSize < n + c then (n + c, true)
    else writeChunks maxSize cs (n + c)

/-- Outcome of DownloadService._download_file together with the state of
the destination file it leaves behind. -/
inductive DLOutcome where
  | success (filename : String) (size : Nat)
  | failNoFile
  | failFileLeft (filename : String) (size : Nat)
deriving DecidableEq

def DLOutcome.isSuccess : DLOutcome → Bool
  | .success _ _ => true
  | _ => false

/-- File left behind by a failed call, if any. -/
def DLOutcome.leftoverFile : DLOutcome → Option (String × Nat)
  | .failFileLeft f s => some (f, s)
  | _ => none

def DLOutcome.fileSize : DLOutcome → Nat
  | .success _ s => s
  | .failFileLeft _ s => s
  | .failNoFile => 0

def respInterrupted : Option TransferResp → Bool
  | some r => r.interrupted
  | none => false

/-- DownloadService._download_file. headCT models the inner HEAD probe
(none: it raised, and the code falls through), resp models session.get
(none: it raised before any byte was written). -/
def download_file (url : String) (headCT : Option String) (resp : Option TransferResp)
    (filename : String) : DLOutcome :=
  if !strStartsWith url "http" then .failNoFile
  else if supported_formats.all (fun fmt => !strContains (strToLower url) fmt) &&
      (match headCT with
       | some ct => !(strContains (strToLower ct) "audio" || strContains (strToLower ct) "mpeg")
       | none => false) then .failNoFile
  else
    match resp with
    | none => .failNoFile
    | some r =>
      if !r.ok then .failNoFile
      else if (match r.contentLength with
               | some n => decide (max_file_size < n)
               | none => false) then .failNoFile
      else
        let ext := chooseExt r.contentType url
        let safe0 := sanitize_filename filename
        let safe := if supported_formats.any (fun fmt => strEndsWith (strToLower safe0) fmt)
          then safe0 else safe0 ++ ext
        let w := writeChunks max_file_size r.chunks 0
        if w.2 then .failNoFile
        else if r.interrupted then .failFileLeft safe w.1
        else if 1024 < w.1 then .success safe w.1
        else .failNoFile

/-- Oracles for one download_song run: the links the static extractor
and the dynamic fallback yield at each attempt, link validation, and
the per-link transfer outcome. -/
structure FetchEnv where
  pageLinks : Nat → List String
  dynamicLinks : Nat → List String
  validate : String → Bool
  transfer : String → Bool

/-- The inner loop of download_song over one list of candidate links:
first link that validates and transfers wins, every failure moves on. -/
def try_links (env : FetchEnv) : List String → Bool
  | [] => false
  | l :: ls =>
    if env.validate l then
      if env.transfer l then true else try_links env ls
    else try_links env ls

def max_retries : Nat := 3

/-- Links seen by attempt i: the static extractor result, or the dynamic
fallback when the static extractor returned nothing. -/
def linksAt (env : FetchEnv) (i : Nat) : List String :=
  let d := env.pageLinks i
  if d.isEmpty then env.dynamicLinks i else d

/-- The retry loop of DownloadService.download_song; the Nat component
counts the attempt cycles begun. -/
def download_song_go (env : FetchEnv) : Nat → Nat → Bool × Nat
  | _, 0 => (false, 0)
  | attempt, fuel + 1 =>
    let links := linksAt env attempt
    if links.isEmpty then
      if attempt + 1 < max_retries then
        let r := download_song_go env (attempt + 1) fuel
        (r.1, r.2 + 1)
      else (false, 1)
    else if try_links env links then (true, 1)
    else if attempt + 1 < max_retries then
      let r := download_song_go env (attempt + 1) fuel
      (r.1, r.2 + 1)
    else (false, 1)

/-- DownloadService.download_song: result and number of cycles begun. -/
def download_song (env : FetchEnv) : Bool × Nat := download_song_go env 0 max_retries

/-- Result record of DownloadService.download_multiple_songs. -/
structure BatchResult where
  successful : List String
  failed : List String
  total : Nat
  success_rate : ℚ
deriving DecidableEq

/-- A per-track run: some true is a successful download, some false a
reported failure, none an exception caught by the per-track handler. -/
def runSong (outcome : Nat → String → Option Bool) (i : Nat) (s : String) : Bool :=
  outcome i s == some true

/-- The batch loop of download_multiple_songs, in input order. -/
def dmsGo (outcome : Nat → String → Option Bool) : Nat → List String → List String × List String
  | _, [] => ([], [])
  | i, s :: ss =>
    let rest := dmsGo outcome (i + 1) ss
    if runSong outcome i s then (s :: rest.1, rest.2) else (rest.1, s :: rest.2)

/-- DownloadService.download_multiple_songs. -/
def download_multiple_songs (outcome : Nat → String → Option Bool) (songs : List String) :
    BatchResult :=
  let p := dmsGo outcome 0 songs
  { successful := p.1
    failed := p.2
    total := songs.length
    success_rate := if songs.length > 0 then (p.1.length : ℚ) / (songs.length : ℚ) else 0 }

/-- Index-aware filter used to state the partition property of the
batch result. -/
def filterIdx (p : Nat → String → Bool) : Nat → List String → List String
  | _, [] => []
  | i, s :: ss => if p i s then s :: filterIdx p (i + 1) ss else filterIdx p (i + 1) ss

/-! ## ScraperService (services/scraper_service.py) -/

structure SearchHit where
  url : String
  title : String
  source : String
deriving DecidableEq

def junk_words : List String := ["advertisement", "ad", "promo"]

/-- Normalised title: lower-cased and stripped, as the dedup pass
computes it. -/
def normTitle (r : SearchHit) : String := pyStrip (strToLower r.title)

/-- The junk test of the dedup pass: too short, or containing one of the
promotional markers as a substring. -/
def isJunkTitle (t : String) : Bool :=
  if t.toList.length < 5 then true
  else junk_words.any (fun w => strContains (strToLower t) w)

/-- The loop of ScraperService._filter_and_deduplicate_results: skip
hits whose URL or normalised title was already kept, skip junk titles,
keep the rest in order. -/
def filterDedupGo : List SearchHit → List String → List String → List SearchHit
  | [], _, _ => []
  | r :: rs, seenU, seenT =>
    if r.url ∈ seenU ∨ normTitle r ∈ seenT then filterDedupGo rs seenU seenT
    else if isJunkTitle (normTitle r) then filterDedupGo rs seenU seenT
    else r :: filterDedupGo rs (r.url :: seenU) (normTitle r :: seenT)

/-- ScraperService._filter_and_deduplicate_results. -/
def filter_and_deduplicate_results (results : List SearchHit) : List SearchHit :=
  filterDedupGo results [] []

def isWordChar (c : Char) : Bool := c.isAlphanum || c == '_'

def stop_words : List String :=
  ["original", "soundtrack", "ost", "feat", "featuring", "remix", "version"]

/-- ScraperService.clean_search_query (ASCII reading of the regex
character class for word characters). -/
def clean_search_query (q : String) : String :=
  let subbed := q.toList.map (fun c => if isWordChar c || pyIsSpace c then c else ' ')
  let collapsed := joinSpaceL (splitWordsL subbed [])
  let words := splitWordsL (collapsed.map Char.toLower) []
  String.mk (joinSpaceL (words.filter (fun w => !stop_words.contains (String.mk w))))

/-- The variation list built by ScraperService._generate_query_variations
before deduplication: word drops and word limits for queries longer than
two words, then the three substitution variants. -/
def rawVariations (query : String) : List String :=
  let words := splitWordsL query.toList []
  let drops :=
    if words.length > 2 then
      (List.range words.length).filterMap (fun i =>
        let variation := pyStripL (joinSpaceL (words.take i ++ words.drop (i + 1)))
        if variation.length > 3 then some (String.mk variation) else none)
    else []
  let limits :=
    if words.length > 2 then
      [String.mk (joinSpaceL (words.take 2)), String.mk (joinSpaceL (words.take 3))]
    else []
  let subs := [strReplace query " " "+", strReplace query "&" "and", strReplace query "and" "&"]
  drops ++ limits ++ subs

/-- ScraperService._generate_query_variations. The ord parameter models
the iteration order of the Python set in list(set(variations)): any
function enumerating the distinct elements of its input in some order. -/
def generate_query_variations (ord : List String → List String) (query : String) : List String :=
  (ord (rawVariations query)).take 5

/-- External search channels; an error value is a transport exception
raised inside the stage, which the stage catches, returning no hits. -/
structure SearchEnv where
  direct : String → String → Except Unit (List SearchHit)
  dynamic : String → Except Unit (List SearchHit)

def primary_base : String := "https://masstamilan.dev"

def backup_base : String := "https://www.masstamilan.com"

/-- ScraperService._search_masstamilan_direct reduced to its oracle: the
surrounding try/except turns any transport error into zero hits. -/
def runDirect (env : SearchEnv) (q base : String) : List SearchHit :=
  match env.direct q base with
  | .ok l => l
  | .error _ => []

/-- The dynamic-rendering channel, with the same catch-all behaviour. -/
def runDynamic (env : SearchEnv) (q : String) : List SearchHit :=
  match env.dynamic q with
  | .ok l => l
  | .error _ => []

/-- Stage 4 of the cascade: run the primary direct search on each
variation in turn, stopping at the first that yields any result. -/
def variationLoop (env : SearchEnv) : List String → List SearchHit
  | [] => []
  | v :: vs =>
    let r := runDirect env v primary_base
    if r.isEmpty then variationLoop env vs else r

/-- ScraperService.search_masstamilan with its accumulating control
flow: each later stage extends the accumulator only when it is empty. -/
def search_masstamilan (env : SearchEnv) (ord : List String → List String) (query : String) :
    List SearchHit :=
  let cleaned := clean_search_query query
  let acc1 := runDirect env cleaned primary_base
  let acc2 := if acc1.isEmpty then acc1 ++ runDirect env cleaned backup_base else acc1
  let acc3 := if acc2.isEmpty then acc2 ++ runDynamic env cleaned else acc2
  let acc4 :=
    if acc3.isEmpty then acc3 ++ variationLoop env (generate_query_variations ord cleaned)
    else acc3
  (filter_and_deduplicate_results acc4).take 20

/-- The strict-fallback early-exit cascade as the specification words
it; the C5 theorem compares it with search_masstamilan. -/
def cascadeFallback (env : SearchEnv) (ord : List String → List String) (query : String) :
    List SearchHit :=
  let cleaned := clean_search_query query
  let s1 := runDirect env cleaned primary_base
  if !s1.isEmpty then s1
  else
    let s2 := runDirect env cleaned backup_base
    if !s2.isEmpty then s2
    else
      let s3 := runDynamic env cleaned
      if !s3.isEmpty then s3
      else variationLoop env (generate_query_variations ord cleaned)

/-- The same channels with every transport error already replaced by an
empty result, used to state that errors act exactly as zero hits. -/
def errorsAsEmpty (env : SearchEnv) : SearchEnv where
  direct := fun q b => .ok (runDirect env q b)
  dynamic := fun q => .ok (runDynamic env q)

/-! ## Page link extraction (ScraperService.get_download_links) -/

/-- Anchor element carrying an href attribute and its display text. -/
structure Anchor where
  href : String
  text : String
deriving DecidableEq

/-- Parsed page content as BeautifulSoup exposes it to
get_download_links: anchors with hrefs, audio element src attributes,
and script text bodies (none when the script has no direct string). -/
structure Page where
  anchors : List Anchor
  audioSrcs : List (Option String)
  scripts : List (Option String)
deriving DecidableEq

/-- Characters allowed inside the URL regex class: anything that is not
whitespace, a double quote, or a single quote. -/
def isUrlChar (c : Char) : Bool := !(pyIsSpace c || c == '"' || c == Char.ofNat 39)

/-- Largest end position of a greedy match of one or more URL characters
followed by the literal .mp3, inside a run of URL characters. -/
def lastMp3End (run : List Char) : Option Nat :=
  (List.range (run.length + 1)).foldl
    (fun acc k =>
      if 5 ≤ k ∧ ".mp3".toList.isSuffixOf (run.take k) = true then some k else acc) none

/-- Try to match the pattern of an http or https URL ending in .mp3 at
the head of l; returns the match and the remaining input. -/
def matchMp3At (l : List Char) : Option (List Char × List Char) :=
  let tryScheme := fun (scheme : List Char) =>
    if scheme.isPrefixOf l then
      let run := (l.drop scheme.length).takeWhile isUrlChar
      match lastMp3End run with
      | some k => some (scheme ++ run.take k, l.drop (scheme.length + k))
      | none => none
    else none
  match tryScheme "https://".toList with
  | some r => some r
  | none => tryScheme "http://".toList

/-- The scanning loop of re.findall: leftmost matches, non-overlapping,
resuming after each match. Fuel is the input length. -/
def scanGo : Nat → List Char → List String
  | 0, _ => []
  | _, [] => []
  | fuel + 1, c :: t =>
    match matchMp3At (c :: t) with
    | some (m, rest) => String.mk m :: scanGo fuel rest
    | none => scanGo fuel t

/-- re.findall of the .mp3 URL pattern over inline script text. -/
def scanMp3Urls (s : String) : List String := scanGo s.toList.length s.toList

/-- Raw link collection in ScraperService.get_download_links: anchors
ending in .mp3 or containing download, audio sources ending in .mp3,
then URLs scanned out of script text. -/
def rawLinks (page : Page) : List String :=
  (page.anchors.filterMap (fun a =>
      if strEndsWith a.href ".mp3" || strContains (strToLower a.href) "download"
      then some a.href else none))
  ++ (page.audioSrcs.filterMap (fun s =>
      match s with
      | some src => if strEndsWith src ".mp3" then some src else none
      | none => none))
  ++ (page.scripts.foldr (fun s acc =>
      match s with
      | some txt => scanMp3Urls txt ++ acc
      | none => acc) [])

/-- Cleanup pass of get_download_links: keep absolute links ending in
.mp3 as they are, resolve links starting with a slash against the page
URL, and drop everything else. -/
def cleanLinks (pageUrl : String) : List String → List String
  | [] => []
  | link :: rest =>
    if strStartsWith link "http" && strEndsWith link ".mp3" then
      link :: cleanLinks pageUrl rest
    else if strStartsWith link "/" then
      urljoinSlash pageUrl link :: cleanLinks pageUrl rest
    else cleanLinks pageUrl rest

/-- ScraperService.get_download_links. -/
def get_download_links (page : Page) (pageUrl : String) : List String :=
  dedupFirst (cleanLinks pageUrl (rawLinks page))

/-- Invariant of the dedup pass: every hit in the list is new relative
to the seen URL and title lists, passes the junk test, and the tail is
again clean once the head is recorded. -/
def Clean : List SearchHit → List String → List String → Prop
  | [], _, _ => True
  | r :: rs, su, st =>
    r.url ∉ su ∧ normTitle r ∉ st ∧ isJunkTitle (normTitle r) = false ∧
      Clean rs (r.url :: su) (normTitle r :: st)

/-- Environment for the C5 counterexample: the primary direct search
returns a single hit whose title the junk filter removes, while the
backup endpoint would return a surviving hit. -/
def c5Env : SearchEnv where
  direct := fun _ b =>
    if b = backup_base then Except.ok [⟨"https://w/songs/y", "lovely tamil melody", "d"⟩]
    else Except.ok [⟨"https://m/songs/x", "promo hits 2024 collection", "d"⟩]
  dynamic := fun _ => Except.ok []

/-! ## General lemmas -/

theorem download_song_go_count_le (env : FetchEnv) :
    ∀ fuel attempt, (download_song_go env attempt fuel).2 ≤ fuel := by
  intro fuel
  induction fuel with
  | zero => intro attempt; simp [download_song_go]
  | succ n ih =>
    intro attempt
    simp only [download_song_go]
    by_cases h1 : (linksAt env attempt).isEmpty = true
    · simp only [h1, if_true]
      by_cases h2 : attempt + 1 < max_retries
      · simpa [h2] using Nat.succ_le_succ (ih (attempt + 1))
      · simp [h2]
    · simp only [h1, if_false]
      by_cases h3 : try_links env (linksAt env attempt) = true
      · simp [h3]
      · by_cases h2 : attempt + 1 < max_retries
        · simpa [h3, h2] using Nat.succ_le_succ (ih (attempt + 1))
        · simp [h3, h2]

theorem dmsGo_eq (outcome : Nat → String → Option Bool) :
    ∀ (l : List String) (i : Nat),
      dmsGo outcome i l =
        (filterIdx (fun j s => runSong outcome j s) i l,
          filterIdx (fun j s => !runSong outcome j s) i l) := by
  intro l
  induction l with
  | nil => intro i; rfl
  | cons s ss ih =>
    intro i
    simp only [dmsGo, filterIdx, ih]
    by_cases h : runSong outcome i s = true
    · simp [h]
    · simp [h]

theorem filterIdx_length_add (p : Nat → String → Bool) :
    ∀ (l : List String) (i : Nat),
      (filterIdx p i l).length + (filterIdx (fun j s => !(p j s)) i l).length = l.length := by
  intro l
  induction l with
  | nil => intro i; rfl
  | cons s ss ih =>
    intro i
    simp only [filterIdx]
    by_cases h : p i s = true
    · simp only [h, Bool.not_true, if_true]
      simp only [Bool.false_eq_true, if_false, List.length_cons]
      have := ih (i + 1)
      omega
    · have h' : p i s = false := by simpa using h
      simp only [h', Bool.not_false, if_true]
      simp only [Bool.false_eq_true, if_false, List.length_cons]
      have := ih (i + 1)
      omega

theorem clean_filterDedupGo :
    ∀ (l : List SearchHit) (su st : List String), Clean (filterDedupGo l su st) su st := by
  intro l
  induction l with
  | nil => intro su st; exact trivial
  | cons r rs ih =>
    intro su st
    simp only [filterDedupGo]
    by_cases h1 : r.url ∈ su ∨ normTitle r ∈ st
    · simpa [h1] using ih su st
    · by_cases h2 : isJunkTitle (normTitle r) = true
      · simpa [h1, h2] using ih su st
      · rw [if_neg h1, if_neg h2]
        show r.url ∉ su ∧ normTitle r ∉ st ∧ isJunkTitle (normTitle r) = false ∧
          Clean (filterDedupGo rs (r.url :: su) (normTitle r :: st))
            (r.url :: su) (normTitle r :: st)
        exact ⟨fun hm => h1 (Or.inl hm), fun hm => h1 (Or.inr hm),
          by simpa using h2, ih _ _⟩

theorem clean_eq_self :
    ∀ (l : List SearchHit) (su st : List String),
      Clean l su st → filterDedupGo l su st = l := by
  intro l
  induction l with
  | nil => intro su st _; rfl
  | cons r rs ih =>
    intro su st h
    simp only [Clean] at h
    obtain ⟨h1, h2, h3, h4⟩ := h
    have hcond : ¬(r.url ∈ su ∨ normTitle r ∈ st) := by
      rintro (hc | hc)
      · exact h1 hc
      · exact h2 hc
    simp only [filterDedupGo]
    rw [if_neg hcond, if_neg (by simp [h3]), ih _ _ h4]

theorem clean_mem :
    ∀ (l : List SearchHit) (su st : List String),
      Clean l su st → ∀ r ∈ l,
        r.url ∉ su ∧ normTitle r ∉ st ∧ isJunkTitle (normTitle r) = false := by
  intro l
  induction l with
  | nil => intro su st _ r hr; exact absurd hr (List.not_mem_nil r)
  | cons a rs ih =>
    intro su st h r hr
    simp only [Clean] at h
    obtain ⟨h1, h2, h3, h4⟩ := h
    rcases List.mem_cons.mp hr with rfl | hr'
    · exact ⟨h1, h2, h3⟩
    · have := ih _ _ h4 r hr'
      refine ⟨fun hm => this.1 (List.mem_cons_of_mem _ hm),
        fun hm => this.2.1 (List.mem_cons_of_mem _ hm), this.2.2⟩

theorem clean_pairwise :
    ∀ (l : List SearchHit) (su st : List String),
      Clean l su st →
        l.Pairwise (fun a b => a.url ≠ b.url ∧ normTitle a ≠ normTitle b) := by
  intro l
  induction l with
  | nil => intro su st _; exact List.Pairwise.nil
  | cons a rs ih =>
    intro su st h
    simp only [Clean] at h
    obtain ⟨h1, h2, h3, h4⟩ := h
    refine List.Pairwise.cons ?_ (ih _ _ h4)
    intro b hb
    have hb' := clean_mem _ _ _ h4 b hb
    constructor
    · intro he
      exact hb'.1 (he ▸ List.mem_cons_self _ _)
    · intro he
      exact hb'.2.1 (he ▸ List.mem_cons_self _ _)

theorem filterDedupGo_sublist :
    ∀ (l : List SearchHit) (su st : List String), List.Sublist (filterDedupGo l su st) l := by
  intro l
  induction l with
  | nil => intro su st; exact List.Sublist.refl _
  | cons r rs ih =>
    intro su st
    simp only [filterDedupGo]
    by_cases h1 : r.url ∈ su ∨ normTitle r ∈ st
    · simp only [h1, if_true]
      exact (ih su st).cons r
    · by_cases h2 : isJunkTitle (normTitle r) = true
      · simp only [h1, h2, if_false, if_true]
        exact (ih su st).cons r
      · simp only [h1, h2, if_false]
        exact (ih _ _).cons₂ r

/-! ## Claim theorems -/

/-- C2: a download_song run never begins more than max_retries (3)
attempt cycles, and when the extraction channels yield zero candidate
links at every attempt it performs exactly 3 cycles and reports
failure, never beginning a 4th cycle. -/
theorem download_song_retry_bound (env : FetchEnv) :
    (download_song env).2 ≤ max_retries ∧
      ((∀ i, env.pageLinks i = [] ∧ env.dynamicLinks i = []) →
        download_song env = (false, 3)) := by
  constructor
  · exact download_song_go_count_le env max_retries 0
  · intro h
    have e0 : linksAt env 0 = [] := by simp [linksAt, (h 0).1, (h 0).2]
    have e1 : linksAt env 1 = [] := by simp [linksAt, (h 1).1, (h 1).2]
    have e2 : linksAt env 2 = [] := by simp [linksAt, (h 2).1, (h 2).2]
    simp [download_song, max_retries, download_song_go, e0, e1, e2]

/-- C2 witness: a concrete environment whose extraction always returns
no links makes download_song fail after exactly 3 cycles. -/
theorem download_song_retry_bound_witness :
    download_song ⟨fun _ => [], fun _ => [], fun _ => true, fun _ => true⟩ = (false, 3) :=
  (download_song_retry_bound ⟨fun _ => [], fun _ => [], fun _ => true, fun _ => true⟩).2
    (fun _ => ⟨rfl, rfl⟩)

/-- C10: the batch downloader partitions the input into the successful
and failed lists in input order, reports the input length as total, and
reports a success rate of successes over total, 0 for an empty input; a
per-track exception (outcome none) lands the track in the failed list
instead of aborting the batch. -/
theorem download_multiple_partition (outcome : Nat → String → Option Bool)
    (songs : List String) :
    (download_multiple_songs outcome songs).successful =
        filterIdx (fun i s => runSong outcome i s) 0 songs ∧
      (download_multiple_songs outcome songs).failed =
        filterIdx (fun i s => !runSong outcome i s) 0 songs ∧
      (download_multiple_songs outcome songs).total = songs.length ∧
      (download_multiple_songs outcome songs).successful.length +
        (download_multiple_songs outcome songs).failed.length = songs.length ∧
      (download_multiple_songs outcome songs).success_rate =
        (if songs.length = 0 then 0
         else ((download_multiple_songs outcome songs).successful.length : ℚ) /
            (songs.length : ℚ)) := by
  have hdms := dmsGo_eq outcome songs 0
  refine ⟨?_, ?_, rfl, ?_, ?_⟩
  · simp [download_multiple_songs, hdms]
  · simp [download_multiple_songs, hdms]
  · simp only [download_multiple_songs, hdms]
    exact filterIdx_length_add (fun j s => runSong outcome j s) songs 0
  · simp only [download_multiple_songs, hdms]
    by_cases h : songs.length = 0
    · simp [h]
    · have : songs.length > 0 := Nat.pos_of_ne_zero h
      simp [h, this]

/-- C4: the dedup-and-filter pass returns a list with pairwise distinct
URLs and pairwise distinct normalised titles, free of junk titles
(shorter than 5 characters or containing a promotional marker),
preserving discovery order, and the cascade output never exceeds 20
hits. -/
theorem filter_dedup_invariants (results : List SearchHit) :
    (filter_and_deduplicate_results results).Pairwise
        (fun a b => a.url ≠ b.url ∧ normTitle a ≠ normTitle b) ∧
      ((filter_and_deduplicate_results results).all
        (fun r => !isJunkTitle (normTitle r))) = true ∧
      List.Sublist (filter_and_deduplicate_results results) results ∧
      ∀ (env : SearchEnv) (ord : List String → List String) (q : String),
        (search_masstamilan env ord q).length ≤ 20 := by
  refine ⟨clean_pairwise _ _ _ (clean_filterDedupGo results [] []), ?_,
    filterDedupGo_sublist results [] [], ?_⟩
  · rw [List.all_eq_true]
    intro r hr
    have := (clean_mem _ _ _ (clean_filterDedupGo results [] []) r hr).2.2
    simp [this]
  · intro env ord q
    simp only [search_masstamilan]
    exact List.length_take_le 20 _

/-- C9 counterexample: with two entries sharing the same URL where the
first is removed by the junk filter, the dedup pass keeps the second
entry, not the first, refuting the claim that only the first of two
same-URL entries is ever kept. -/
theorem filter_dedup_keeps_later_duplicate :
    filter_and_deduplicate_results
        [⟨"u", "promo hits 2024", "s"⟩, ⟨"u", "lovely song", "s"⟩] =
      [⟨"u", "lovely song", "s"⟩] ∧
      (⟨"u", "promo hits 2024", "s"⟩ : SearchHit).url =
        (⟨"u", "lovely song", "s"⟩ : SearchHit).url ∧
      (⟨"u", "lovely song", "s"⟩ : SearchHit) ≠ ⟨"u", "promo hits 2024", "s"⟩ := by
  decide

/-- C9 amended: the dedup-and-filter pass is idempotent, and when the
first of two same-URL entries itself passes the junk filter, only that
first entry is kept. -/
theorem filter_dedup_idempotent :
    (∀ l, filter_and_deduplicate_results (filter_and_deduplicate_results l) =
        filter_and_deduplicate_results l) ∧
      ∀ a b : SearchHit, a.url = b.url → isJunkTitle (normTitle a) = false →
        filter_and_deduplicate_results [a, b] = [a] := by
  constructor
  · intro l
    exact clean_eq_self _ _ _ (clean_filterDedupGo l [] [])
  · intro a b hurl hjunk
    simp [filter_and_deduplicate_results, filterDedupGo, hjunk, ← hurl]

/-- C9 witness: idempotence and first-entry retention at concrete
inputs. -/
theorem filter_dedup_idempotent_witness :
    filter_and_deduplicate_results
        [(⟨"u", "nice title", "s"⟩ : SearchHit), ⟨"u", "other fine title", "s"⟩] =
      [⟨"u", "nice title", "s"⟩] :=
  filter_dedup_idempotent.2 ⟨"u", "nice title", "s"⟩ ⟨"u", "other fine title", "s"⟩
    rfl (by decide)

theorem containsSub_append (pat : List Char) :
    ∀ t : List Char, containsSub (t ++ pat) pat = true := by
  intro t
  induction t with
  | nil =>
    cases pat with
    | nil => rfl
    | cons c cs =>
      simp [containsSub, List.isPrefixOf_iff_prefix.mpr List.prefix_rfl]
  | cons c t ih =>
    simp [containsSub, ih]

theorem strContains_of_strEndsWith (s pat : String) (h : strEndsWith s pat = true) :
    strContains s pat = true := by
  have hsuf : pat.toList <:+ s.toList := List.isSuffixOf_iff_suffix.mp h
  obtain ⟨t, ht⟩ := hsuf
  unfold strContains
  rw [← ht]
  exact containsSub_append _ t

/-- C3 counterexample: a URL that merely contains .mp3 as a substring,
without ending in any known audio extension, is accepted by the fast
path with no probe at all, even though the probe would fail. -/
theorem validate_link_fast_path_substring :
    validate_download_link (fun _ => none) "https://h/track.mp3.html" = true ∧
      (supported_formats.all
        (fun e => !strEndsWith (strToLower "https://h/track.mp3.html") e)) = true := by
  decide

/-- C3 amended: the fast path accepts any URL whose lower-cased text
contains a known audio extension as a substring (in particular every
URL that ends in one); for other URLs the probe must return status 200,
an audio content kind, and an in-range declared size when present, and a
probe transport error yields false rather than an exception. -/
theorem validate_link_characterization (probe : String → Option HeadResp) (url : String) :
    (supported_formats.any (fun e => strContains (strToLower url) e) = true →
        validate_download_link probe url = true) ∧
      (∀ e ∈ supported_formats, strEndsWith (strToLower url) e = true →
        validate_download_link probe url = true) ∧
      (supported_formats.any (fun e => strContains (strToLower url) e) = false →
        probe url = none → validate_download_link probe url = false) ∧
      (supported_formats.any (fun e => strContains (strToLower url) e) = false →
        ∀ r, probe url = some r →
          (validate_download_link probe url = true ↔
            r.status = 200 ∧ isAudioCT r.contentType = true ∧
              sizeOk r.contentLength = true)) := by
  refine ⟨?_, ?_, ?_, ?_⟩
  · intro h
    simp [validate_download_link, h]
  · intro e he hend
    have hc : strContains (strToLower url) e = true := strContains_of_strEndsWith _ _ hend
    have hany : supported_formats.any (fun e2 => strContains (strToLower url) e2) = true := by
      rw [List.any_eq_true]
      exact ⟨e, he, hc⟩
    simp [validate_download_link, hany]
  · intro h hnone
    simp [validate_download_link, h, hnone]
  · intro h r hr
    by_cases hs : r.status = 200
    · cases hcl : r.contentLength with
      | none =>
        simp [validate_download_link, h, hr, hs, hcl, sizeOk]
      | some n =>
        by_cases h1 : n < 1024 * 1024
        · simp [validate_download_link, h, hr, hs, hcl, sizeOk, h1]
        · by_cases h2 : max_file_size < n
          · simp [validate_download_link, h, hr, hs, hcl, sizeOk, h1, h2]
          · simp [validate_download_link, h, hr, hs, hcl, sizeOk, h1, h2]
    · simp [validate_download_link, h, hr, hs]

/-- C3 witness: a probe transport error on a URL with no audio
extension substring makes validation return false. -/
theorem validate_link_characterization_witness :
    validate_download_link (fun _ => none) "https://example.org/page" = false :=
  (validate_link_characterization (fun _ => none) "https://example.org/page").2.2.1
    (by decide) rfl

theorem splitWords_chars :
    ∀ (l cur : List Char) (w : List Char), w ∈ splitWordsL l cur →
      ∀ c ∈ w, c ∈ l ∨ c ∈ cur := by
  intro l
  induction l with
  | nil =>
    intro cur w hw c hc
    simp only [splitWordsL] at hw
    by_cases he : cur.isEmpty = true
    · rw [if_pos he] at hw
      exact absurd hw (List.not_mem_nil w)
    · rw [if_neg he] at hw
      obtain rfl := List.mem_singleton.mp hw
      exact Or.inr (List.mem_reverse.mp hc)
  | cons c0 t ih =>
    intro cur w hw c hc
    simp only [splitWordsL] at hw
    by_cases hs : pyIsSpace c0 = true
    · rw [if_pos hs] at hw
      by_cases he : cur.isEmpty = true
      · rw [if_pos he] at hw
        rcases ih [] w hw c hc with h | h
        · exact Or.inl (List.mem_cons_of_mem _ h)
        · exact absurd h (List.not_mem_nil c)
      · rw [if_neg he] at hw
        rcases List.mem_cons.mp hw with rfl | hw2
        · exact Or.inr (List.mem_reverse.mp hc)
        · rcases ih [] w hw2 c hc with h | h
          · exact Or.inl (List.mem_cons_of_mem _ h)
          · exact absurd h (List.not_mem_nil c)
    · rw [if_neg hs] at hw
      rcases ih (c0 :: cur) w hw c hc with h | h
      · exact Or.inl (List.mem_cons_of_mem _ h)
      · rcases List.mem_cons.mp h with rfl | h2
        · exact Or.inl (List.mem_cons_self _ _)
        · exact Or.inr h2

theorem joinSpace_chars :
    ∀ (ws : List (List Char)) (c : Char), c ∈ joinSpaceL ws →
      c = ' ' ∨ ∃ w ∈ ws, c ∈ w := by
  intro ws
  induction ws with
  | nil =>
    intro c hc
    exact absurd hc (List.not_mem_nil c)
  | cons w rest ih =>
    intro c hc
    cases rest with
    | nil =>
      exact Or.inr ⟨w, List.mem_cons_self _ _, hc⟩
    | cons w2 rest2 =>
      rcases List.mem_append.mp hc with h | h
      · exact Or.inr ⟨w, List.mem_cons_self _ _, h⟩
      · rcases List.mem_cons.mp h with rfl | h
        · exact Or.inl rfl
        · rcases ih c h with h' | ⟨w', hw', hc'⟩
          · exact Or.inl h'
          · exact Or.inr ⟨w', List.mem_cons_of_mem _ hw', hc'⟩

/-- C8 counterexample: sanitisation also collapses whitespace runs and
strips the ends, so it differs from the pure replace-and-truncate
procedure the claim describes. -/
theorem sanitize_whitespace_counterexample :
    sanitize_filename "A  B" = "A B" ∧ sanitizeSpecWords "A  B" = "A  B" ∧
      sanitize_filename "A  B" ≠ sanitizeSpecWords "A  B" := by
  decide

/-- C8 amended: the destination name replaces each filesystem-unsafe
character by an underscore, additionally collapses whitespace runs, and
is truncated to 100 characters, the stated example included; the
appended extension is always a supported format, chosen from the
declared content kind when it is a recognised audio kind and otherwise
from the URL suffix when that suffix is supported, with .mp3 as the
final fallback. -/
theorem sanitize_and_extension_spec (f ct url : String) :
    (sanitize_filename f).toList.length ≤ 100 ∧
      ((sanitize_filename f).toList.all (fun c => !invalid_chars.contains c)) = true ∧
      sanitize_filename "A/B:C*D" = "A_B_C_D" ∧
      supported_formats.contains (chooseExt ct url) = true ∧
      (ctKnown ct = false →
        supported_formats.contains (strToLower (splitextExt (urlPath url))) = true →
        chooseExt ct url = strToLower (splitextExt (urlPath url))) ∧
      (ctKnown ct = false →
        supported_formats.contains (strToLower (splitextExt (urlPath url))) = false →
        chooseExt ct url = ".mp3") ∧
      ((strContains ct "audio/mpeg" || strContains ct "audio/mp3") = true →
        chooseExt ct url = ".mp3") := by
  have hclean : ∀ c ∈ (sanitize_filename f).toList, (!invalid_chars.contains c) = true := by
    intro c hc
    have hc' : c ∈ joinSpaceL (splitWordsL
        (f.toList.map (fun a => if invalid_chars.contains a then '_' else a)) []) := by
      simpa [sanitize_filename] using List.mem_of_mem_take hc
    rcases joinSpace_chars _ c hc' with rfl | ⟨w, hw, hcw⟩
    · decide
    · rcases splitWords_chars _ [] w hw c hcw with h | h
      · rcases List.mem_map.mp h with ⟨a, _, ha⟩
        by_cases hia : invalid_chars.contains a = true
        · simp only [hia, if_true] at ha
          subst ha
          decide
        · simp only [hia, if_false] at ha
          subst ha
          simpa using hia
      · exact absurd h (List.not_mem_nil c)
  refine ⟨?_, ?_, by decide, ?_, ?_, ?_, ?_⟩
  · simp only [sanitize_filename]
    exact List.length_take_le 100 _
  · rw [List.all_eq_true]
    exact hclean
  · simp only [chooseExt]
    by_cases h1 : (strContains ct "audio/mpeg" || strContains ct "audio/mp3") = true
    · rw [if_pos h1]
      decide
    · rw [if_neg h1]
      by_cases h2 : (strContains ct "audio/mp4" || strContains ct "audio/m4a") = true
      · rw [if_pos h2]
        decide
      · rw [if_neg h2]
        by_cases h3 : supported_formats.contains (strToLower (splitextExt (urlPath url))) = true
        · rw [if_pos h3]
          exact h3
        · rw [if_neg h3]
          decide
  · intro hk hext
    have hp := Bool.or_eq_false_iff.mp hk
    have hmem : strToLower (splitextExt (urlPath url)) ∈ supported_formats := by
      simpa using hext
    simp [chooseExt, hp.1, hp.2, hmem]
  · intro hk hext
    have hp := Bool.or_eq_false_iff.mp hk
    have hmem : strToLower (splitextExt (urlPath url)) ∉ supported_formats := by
      simpa using hext
    simp [chooseExt, hp.1, hp.2, hmem]
  · intro h
    simp [chooseExt, h]

/-- C8 witness: an unrecognised content kind falls back to the URL
suffix when that suffix is a supported format. -/
theorem sanitize_and_extension_spec_witness :
    chooseExt "text/html" "https://h/a.m4a" =
      strToLower (splitextExt (urlPath "https://h/a.m4a")) :=
  (sanitize_and_extension_spec "x" "text/html" "https://h/a.m4a").2.2.2.2.1
    (by decide) (by decide)

/-- C1 counterexample: a transport error that interrupts the stream
mid-transfer makes the call fail while leaving the partial file on
disk, so a failed link attempt can leave a truncated file behind. -/
theorem download_file_interrupted_partial_left :
    (download_file "http://h/a.mp3" none (some ⟨true, "audio/mpeg", none, [5000], true⟩)
        "song").isSuccess = false ∧
      (download_file "http://h/a.mp3" none (some ⟨true, "audio/mpeg", none, [5000], true⟩)
        "song").leftoverFile = some ("song.mp3", 5000) := by
  decide

/-- C1 amended: a download reports success only when the written file
exceeds 1 KiB; whenever the stream is not interrupted by a transport
error, a failing call deletes its file (undersized results and
transfers that exceed the size cap mid-stream leave nothing behind);
and a failed link transfer makes the controller move on to the next
candidate link. A mid-stream transport error may leave a partial file. -/
theorem download_file_verified_cleanup (url : String) (headCT : Option String)
    (resp : Option TransferResp) (filename : String) :
    ((download_file url headCT resp filename).isSuccess = true →
        1024 < (download_file url headCT resp filename).fileSize) ∧
      (respInterrupted resp = false →
        (download_file url headCT resp filename).leftoverFile = none) ∧
      (∀ (env : FetchEnv) (l : String) (ls : List String), env.transfer l = false →
        try_links env (l :: ls) = try_links env ls) := by
  refine ⟨?_, ?_, ?_⟩
  rotate_left 2
  · intro env l ls hl
    simp [try_links, hl]
  all_goals
    cases resp with
    | none =>
      simp [download_file, DLOutcome.isSuccess, DLOutcome.leftoverFile, respInterrupted]
    | some r =>
      simp only [download_file, DLOutcome.isSuccess, DLOutcome.fileSize,
        DLOutcome.leftoverFile, respInterrupted]
      split_ifs <;> simp_all

/-- C1 witness: an uninterrupted 2000-byte transfer succeeds with more
than 1 KiB on disk and leaves no leftover on the failure path, and a
failing transfer makes try_links fall through to the remaining links. -/
theorem download_file_verified_cleanup_witness :
    (download_file "http://h/a.mp3" none (some ⟨true, "audio/mpeg", none, [2000], false⟩)
        "song").leftoverFile = none ∧
      1024 < (download_file "http://h/a.mp3" none
          (some ⟨true, "audio/mpeg", none, [2000], false⟩) "song").fileSize ∧
      try_links ⟨fun _ => [], fun _ => [], fun _ => true, fun _ => false⟩ ["x"] =
        try_links ⟨fun _ => [], fun _ => [], fun _ => true, fun _ => false⟩ [] := by
  refine ⟨?_, ?_, ?_⟩
  · exact (download_file_verified_cleanup "http://h/a.mp3" none
      (some ⟨true, "audio/mpeg", none, [2000], false⟩) "song").2.1 rfl
  · exact (download_file_verified_cleanup "http://h/a.mp3" none
      (some ⟨true, "audio/mpeg", none, [2000], false⟩) "song").1 (by decide)
  · exact (download_file_verified_cleanup "http://h/a.mp3" none
      (some ⟨true, "audio/mpeg", none, [2000], false⟩) "song").2.2
      ⟨fun _ => [], fun _ => [], fun _ => true, fun _ => false⟩ "x" [] rfl

theorem dedupFirstGo_mem {α : Type} [DecidableEq α] :
    ∀ (l seen : List α) (x : α), x ∈ dedupFirstGo l seen ↔ x ∈ l ∧ x ∉ seen := by
  intro l
  induction l with
  | nil => intro seen x; simp [dedupFirstGo]
  | cons a t ih =>
    intro seen x
    simp only [dedupFirstGo]
    by_cases ha : a ∈ seen
    · rw [if_pos ha, ih]
      constructor
      · rintro ⟨hx, hn⟩
        exact ⟨List.mem_cons_of_mem _ hx, hn⟩
      · rintro ⟨hx, hn⟩
        rcases List.mem_cons.mp hx with rfl | hx'
        · exact absurd ha hn
        · exact ⟨hx', hn⟩
    · rw [if_neg ha]
      constructor
      · intro hmem
        rcases List.mem_cons.mp hmem with rfl | hmem'
        · exact ⟨List.mem_cons_self _ _, ha⟩
        · obtain ⟨hx, hn⟩ := (ih (a :: seen) x).mp hmem'
          exact ⟨List.mem_cons_of_mem _ hx, fun hs => hn (List.mem_cons_of_mem _ hs)⟩
      · rintro ⟨hx, hn⟩
        rcases List.mem_cons.mp hx with rfl | hx'
        · exact List.mem_cons_self _ _
        · by_cases hxa : x = a
          · subst hxa
            exact List.mem_cons_self _ _
          · refine List.mem_cons_of_mem _ ((ih (a :: seen) x).mpr ⟨hx', ?_⟩)
            intro hs
            rcases List.mem_cons.mp hs with h | h
            · exact hxa h
            · exact hn h

theorem dedupFirstGo_nodup {α : Type} [DecidableEq α] :
    ∀ (l seen : List α), (dedupFirstGo l seen).Nodup := by
  intro l
  induction l with
  | nil => intro seen; exact List.nodup_nil
  | cons a t ih =>
    intro seen
    simp only [dedupFirstGo]
    by_cases ha : a ∈ seen
    · rw [if_pos ha]
      exact ih seen
    · rw [if_neg ha]
      refine List.Nodup.cons ?_ (ih (a :: seen))
      intro hmem
      exact ((dedupFirstGo_mem t (a :: seen) a).mp hmem).2 (List.mem_cons_self _ _)

theorem dedupFirstGo_sublist {α : Type} [DecidableEq α] :
    ∀ (l seen : List α), List.Sublist (dedupFirstGo l seen) l := by
  intro l
  induction l with
  | nil => intro seen; exact List.Sublist.refl _
  | cons a t ih =>
    intro seen
    simp only [dedupFirstGo]
    by_cases ha : a ∈ seen
    · rw [if_pos ha]
      exact (ih seen).cons a
    · rw [if_neg ha]
      exact (ih (a :: seen)).cons₂ a

/-- C6 counterexample: on the empty query every generated variation is
the empty string, so the generator returns one entry that is empty
after trimming (the result is the same for any set iteration order,
since the variation set is a singleton). -/
theorem variations_empty_entry_counterexample :
    generate_query_variations dedupFirst "" = [""] ∧ (pyStrip "").toList.length = 0 := by
  decide

/-- C6 amended: for any set-iteration-order oracle enumerating the
distinct elements of its input, the variation generator is a pure
function returning at most 5 entries with no duplicates, each drawn
from the generated raw variation list; entries are not guaranteed
nonempty after trimming, and the enumeration order of a Python set is
not guaranteed to be first-seen order. -/
theorem variations_bound_nodup (ord : List String → List String) (query : String)
    (h1 : ∀ l : List String, (ord l).Nodup)
    (h2 : ∀ (l : List String) (x : String), x ∈ ord l → x ∈ l) :
    (generate_query_variations ord query).length ≤ 5 ∧
      (generate_query_variations ord query).Nodup ∧
      ∀ x ∈ generate_query_variations ord query, x ∈ rawVariations query := by
  refine ⟨?_, ?_, ?_⟩
  · simp only [generate_query_variations]
    exact List.length_take_le 5 _
  · simp only [generate_query_variations]
    exact List.Nodup.sublist (List.take_sublist 5 _) (h1 _)
  · intro x hx
    simp only [generate_query_variations] at hx
    exact h2 _ _ (List.mem_of_mem_take hx)

/-- C6 witness: with the first-seen deduplication order the generator
obeys the bound and distinctness at a concrete query. -/
theorem variations_bound_nodup_witness :
    (generate_query_variations dedupFirst "vaathi coming tamil movie").length ≤ 5 ∧
      (generate_query_variations dedupFirst "vaathi coming tamil movie").Nodup := by
  have h := variations_bound_nodup dedupFirst "vaathi coming tamil movie"
    (fun l => dedupFirstGo_nodup l [])
    (fun l x hx => ((dedupFirstGo_mem l [] x).mp hx).1)
  exact ⟨h.1, h.2.1⟩

theorem runDirect_errorsAsEmpty (env : SearchEnv) (q b : String) :
    runDirect (errorsAsEmpty env) q b = runDirect env q b := rfl

theorem runDynamic_errorsAsEmpty (env : SearchEnv) (q : String) :
    runDynamic (errorsAsEmpty env) q = runDynamic env q := rfl

theorem variationLoop_errorsAsEmpty (env : SearchEnv) :
    ∀ vs : List String, variationLoop (errorsAsEmpty env) vs = variationLoop env vs := by
  intro vs
  induction vs with
  | nil => rfl
  | cons v vs ih =>
    simp only [variationLoop, runDirect_errorsAsEmpty, ih]

/-- C5 counterexample: when the primary stage yields one hit that the
junk filter later removes, search returns the empty list without ever
consulting the backup stage, whose hit would have survived the filter.
So an empty result does not mean all four stages were exhausted. -/
theorem search_empty_without_exhausting_stages :
    search_masstamilan c5Env dedupFirst "song" = [] ∧
      runDirect c5Env (clean_search_query "song") primary_base ≠ [] ∧
      runDirect c5Env (clean_search_query "song") backup_base =
        [⟨"https://w/songs/y", "lovely tamil melody", "d"⟩] ∧
      filter_and_deduplicate_results
          [⟨"https://w/songs/y", "lovely tamil melody", "d"⟩] =
        [⟨"https://w/songs/y", "lovely tamil melody", "d"⟩] := by
  decide

/-- C5 amended: search_masstamilan equals the strict-fallback early-exit
cascade (primary direct, then backup direct, then the dynamic channel,
then up to 5 variations stopping at the first producing hits) followed
by the dedup filter and the 20-hit cap; and a transport error inside a
stage behaves exactly as that stage yielding zero hits. The search can,
however, return an empty list without exhausting later stages when an
earlier stage yields only hits that the junk filter removes. -/
theorem search_cascade_refines_fallback (env : SearchEnv)
    (ord : List String → List String) (query : String) :
    search_masstamilan env ord query =
        (filter_and_deduplicate_results (cascadeFallback env ord query)).take 20 ∧
      search_masstamilan (errorsAsEmpty env) ord query =
        search_masstamilan env ord query := by
  constructor
  · simp only [search_masstamilan, cascadeFallback]
    cases h1 : runDirect env (clean_search_query query) primary_base with
    | cons a t => simp [h1]
    | nil =>
      cases h2 : runDirect env (clean_search_query query) backup_base with
      | cons a t => simp [h1, h2]
      | nil =>
        cases h3 : runDynamic env (clean_search_query query) with
        | cons a t => simp [h1, h2, h3]
        | nil => simp [h1, h2, h3]
  · simp only [search_masstamilan, runDirect_errorsAsEmpty, runDynamic_errorsAsEmpty,
      variationLoop_errorsAsEmpty]

theorem slash_not_http (x : String) (h : strStartsWith x "/" = true) :
    strStartsWith x "http" = false := by
  by_contra hcon
  rw [Bool.not_eq_false] at hcon
  obtain ⟨t, ht⟩ := List.isPrefixOf_iff_prefix.mp h
  obtain ⟨t2, ht2⟩ := List.isPrefixOf_iff_prefix.mp hcon
  rw [← ht] at ht2
  injection ht2 with h1 _
  exact absurd h1 (by decide)

theorem mem_rawLinks_anchor (page : Page) (a : Anchor) (ha : a ∈ page.anchors)
    (hcond : (strEndsWith a.href ".mp3" ||
        strContains (strToLower a.href) "download") = true) :
    a.href ∈ rawLinks page := by
  unfold rawLinks
  refine List.mem_append.mpr (Or.inl (List.mem_append.mpr (Or.inl ?_)))
  exact List.mem_filterMap.mpr ⟨a, ha, by rw [if_pos hcond]⟩

theorem mem_rawLinks_audio (page : Page) (src : String) (hs : some src ∈ page.audioSrcs)
    (he : strEndsWith src ".mp3" = true) : src ∈ rawLinks page := by
  unfold rawLinks
  refine List.mem_append.mpr (Or.inl (List.mem_append.mpr (Or.inr ?_)))
  refine List.mem_filterMap.mpr ⟨some src, hs, ?_⟩
  show (if strEndsWith src ".mp3" = true then some src else none) = some src
  rw [if_pos he]

theorem foldr_scripts_mem :
    ∀ (scripts : List (Option String)) (txt u : String),
      some txt ∈ scripts → u ∈ scanMp3Urls txt →
      u ∈ scripts.foldr (fun s acc =>
        match s with
        | some t => scanMp3Urls t ++ acc
        | none => acc) [] := by
  intro scripts
  induction scripts with
  | nil =>
    intro txt u h _
    exact absurd h (List.not_mem_nil _)
  | cons s rest ih =>
    intro txt u hmem hu
    rcases List.mem_cons.mp hmem with rfl | h
    · simp only [List.foldr_cons]
      exact List.mem_append.mpr (Or.inl hu)
    · cases s with
      | none => simpa using ih txt u h hu
      | some t =>
        simp only [List.foldr_cons]
        exact List.mem_append.mpr (Or.inr (ih txt u h hu))

theorem mem_rawLinks_script (page : Page) (txt u : String) (ht : some txt ∈ page.scripts)
    (hu : u ∈ scanMp3Urls txt) : u ∈ rawLinks page := by
  unfold rawLinks
  exact List.mem_append.mpr (Or.inr (foldr_scripts_mem page.scripts txt u ht hu))

theorem cleanLinks_mem_abs (pageUrl : String) :
    ∀ (L : List String) (x : String), x ∈ L → strStartsWith x "http" = true →
      strEndsWith x ".mp3" = true → x ∈ cleanLinks pageUrl L := by
  intro L
  induction L with
  | nil =>
    intro x hx _ _
    exact absurd hx (List.not_mem_nil x)
  | cons a t ih =>
    intro x hx hs he
    rcases List.mem_cons.mp hx with rfl | hx'
    · simp only [cleanLinks]
      rw [if_pos (by rw [hs, he]; rfl)]
      exact List.mem_cons_self _ _
    · simp only [cleanLinks]
      by_cases c1 : (strStartsWith a "http" && strEndsWith a ".mp3") = true
      · rw [if_pos c1]
        exact List.mem_cons_of_mem _ (ih x hx' hs he)
      · rw [if_neg c1]
        by_cases c2 : strStartsWith a "/" = true
        · rw [if_pos c2]
          exact List.mem_cons_of_mem _ (ih x hx' hs he)
        · rw [if_neg c2]
          exact ih x hx' hs he

theorem cleanLinks_mem_rel (pageUrl : String) :
    ∀ (L : List String) (x : String), x ∈ L → strStartsWith x "/" = true →
      urljoinSlash pageUrl x ∈ cleanLinks pageUrl L := by
  intro L
  induction L with
  | nil =>
    intro x hx _
    exact absurd hx (List.not_mem_nil x)
  | cons a t ih =>
    intro x hx hsl
    rcases List.mem_cons.mp hx with rfl | hx'
    · simp only [cleanLinks]
      rw [if_neg (by rw [slash_not_http x hsl]; simp), if_pos hsl]
      exact List.mem_cons_self _ _
    · simp only [cleanLinks]
      by_cases c1 : (strStartsWith a "http" && strEndsWith a ".mp3") = true
      · rw [if_pos c1]
        exact List.mem_cons_of_mem _ (ih x hx' hsl)
      · rw [if_neg c1]
        by_cases c2 : strStartsWith a "/" = true
        · rw [if_pos c2]
          exact List.mem_cons_of_mem _ (ih x hx' hsl)
        · rw [if_neg c2]
          exact ih x hx' hsl

/-- C7 counterexample: an anchor whose target ends in the known audio
extension .m4a is not extracted at all, since the code only tests for
the .mp3 suffix or the word download inside the href. -/
theorem extract_misses_m4a_anchor :
    get_download_links ⟨[⟨"https://h/a.m4a", "song"⟩], [], []⟩ "https://h/p" = [] ∧
      ".m4a" ∈ supported_formats ∧
      strEndsWith "https://h/a.m4a" ".m4a" = true := by
  decide

/-- C7 amended: link extraction returns an exact-string first-occurrence
deduplicated, order-preserving list; it includes every anchor href that
is absolute and ends in .mp3, resolves every collected link starting
with a slash against the page URL (anchors qualify by ending in .mp3 or
containing download in the href), includes every absolute .mp3 audio
source, and every URL matched inside script text that is absolute and
ends in .mp3; absolute links not ending in .mp3 and other relative
links are dropped, and extensions other than .mp3 are not recognised. -/
theorem extract_links_spec (page : Page) (pageUrl : String) :
    (get_download_links page pageUrl).Nodup ∧
      List.Sublist (get_download_links page pageUrl)
        (cleanLinks pageUrl (rawLinks page)) ∧
      (∀ a ∈ page.anchors, strStartsWith a.href "http" = true →
        strEndsWith a.href ".mp3" = true →
        a.href ∈ get_download_links page pageUrl) ∧
      (∀ a ∈ page.anchors, strStartsWith a.href "/" = true →
        (strEndsWith a.href ".mp3" || strContains (strToLower a.href) "download") = true →
        urljoinSlash pageUrl a.href ∈ get_download_links page pageUrl) ∧
      (∀ src : String, some src ∈ page.audioSrcs → strStartsWith src "http" = true →
        strEndsWith src ".mp3" = true → src ∈ get_download_links page pageUrl) ∧
      (∀ txt : String, some txt ∈ page.scripts → ∀ u ∈ scanMp3Urls txt,
        strStartsWith u "http" = true → strEndsWith u ".mp3" = true →
        u ∈ get_download_links page pageUrl) := by
  refine ⟨dedupFirstGo_nodup _ [], dedupFirstGo_sublist _ [], ?_, ?_, ?_, ?_⟩
  · intro a ha hhttp hmp3
    refine (dedupFirstGo_mem _ [] _).mpr ⟨?_, List.not_mem_nil _⟩
    exact cleanLinks_mem_abs pageUrl _ _
      (mem_rawLinks_anchor page a ha (by rw [hmp3]; rfl)) hhttp hmp3
  · intro a ha hsl hcond
    refine (dedupFirstGo_mem _ [] _).mpr ⟨?_, List.not_mem_nil _⟩
    exact cleanLinks_mem_rel pageUrl _ _ (mem_rawLinks_anchor page a ha hcond) hsl
  · intro src hsrc hhttp hmp3
    refine (dedupFirstGo_mem _ [] _).mpr ⟨?_, List.not_mem_nil _⟩
    exact cleanLinks_mem_abs pageUrl _ _ (mem_rawLinks_audio page src hsrc hmp3) hhttp hmp3
  · intro txt htxt u hu hhttp hmp3
    refine (dedupFirstGo_mem _ [] _).mpr ⟨?_, List.not_mem_nil _⟩
    exact cleanLinks_mem_abs pageUrl _ _ (mem_rawLinks_script page txt u htxt hu) hhttp hmp3

/-- C7 witness: an absolute .mp3 anchor is extracted, at a concrete
page. -/
theorem extract_links_spec_witness :
    "https://h/a.mp3" ∈
      get_download_links ⟨[⟨"https://h/a.mp3", "t"⟩], [], []⟩ "https://h/p" :=
  (extract_links_spec ⟨[⟨"https://h/a.mp3", "t"⟩], [], []⟩ "https://h/p").2.2.1
    ⟨"https://h/a.mp3", "t"⟩ (by decide) (by decide) (by decide)
